import Mathlib

/-!
# Verification of `dmora_concurrency.c`

Shallow embedding of the synchronization cores of the concurrency runner
(bounded-buffer producer/consumer, dining philosophers, potion brewers,
and the CLI parser), with theorems settling the specification claims.

All definitions are translated directly from the source file
`src/dmora_concurrency.c`; line numbers in comments refer to that file.
-/

set_option autoImplicit false

namespace DmoraConcurrency

/-! ## Producer/Consumer ring buffer (lines 59-122)

The C globals are `int PCQueue[QUEUE_SIZE]`, `int Q_Head = 0`, `int Q_Tail = 0`
with `QUEUE_SIZE = 100` and `QUEUE_END = QUEUE_SIZE - 1 = 99`.  We model the
backing array as total memory `buf : Int → Int` so that the index of every
array read and write is explicit and can be checked against the bounds
`[0, 99]`.  C global arrays are zero-initialized. -/

def QUEUE_SIZE : Int := 100

def QUEUE_END : Int := QUEUE_SIZE - 1

structure QState where
  head : Int
  tail : Int
  buf : Int → Int

/-- Initial state of the C globals: `Q_Head = 0`, `Q_Tail = 0`,
`PCQueue` zero-initialized (line 73-76). -/
def qInit : QState := ⟨0, 0, fun _ => 0⟩

/-- `queue_full` (lines 87-89):
`(Q_Head == 0 && Q_Tail == QUEUE_END) || (Q_Tail == (Q_Head - 1))`. -/
def queue_full (s : QState) : Bool :=
  (s.head == 0 && s.tail == QUEUE_END) || (s.tail == s.head - 1)

/-- `queue_empty` (lines 92-94): `Q_Head < 0`. -/
def queue_empty (s : QState) : Bool :=
  s.head < 0

/-- Store `value` at index `i` of the backing array. -/
def writeBuf (b : Int → Int) (i value : Int) : Int → Int :=
  fun j => if j = i then value else b j

/-- `queue_push` (lines 96-107): the three branches update `Q_Head`/`Q_Tail`
and then `PCQueue[Q_Tail] = value` writes at the updated tail.  Returns the
updated state together with the index written. -/
def queue_push (value : Int) (s : QState) : QState × Int :=
  if s.head < 0 then
    (⟨0, 0, writeBuf s.buf 0 value⟩, 0)
  else if s.head > 0 && s.tail == QUEUE_END then
    (⟨s.head, 0, writeBuf s.buf 0 value⟩, 0)
  else
    (⟨s.head, s.tail + 1, writeBuf s.buf (s.tail + 1) value⟩, s.tail + 1)

/-- `queue_pop` (lines 109-122): reads `value = PCQueue[Q_Head]` and then
updates `Q_Head`/`Q_Tail` in three branches.  Returns the updated state, the
value read, and the index read. -/
def queue_pop (s : QState) : QState × Int × Int :=
  if s.head = s.tail then
    (⟨-1, -1, s.buf⟩, s.buf s.head, s.head)
  else if s.head = QUEUE_END then
    (⟨0, s.tail, s.buf⟩, s.buf s.head, s.head)
  else
    (⟨s.head + 1, s.tail, s.buf⟩, s.buf s.head, s.head)

/-- Protocol-respecting reachability: a `put` happens only when the channel is
not full and a `get` only when it is not empty, which is exactly what the
blocking protocol of `produce`/`consume` (lines 136-175) guarantees for the
state mutations performed under the mutex. -/
inductive QReach : QState → Prop
  | init : QReach qInit
  | push (s : QState) (v : Int) : QReach s → queue_full s = false →
      QReach (queue_push v s).1
  | pop (s : QState) : QReach s → queue_empty s = false →
      QReach (queue_pop s).1

/-- Number of occupied slots: when `Q_Head ≥ 0` the slots `Q_Head .. Q_Tail`
(circularly) are occupied; `Q_Head < 0` encodes the empty queue. -/
def occupied (s : QState) : Int :=
  if s.head < 0 then 0 else (s.tail - s.head) % QUEUE_SIZE + 1

/-- Head/tail bounds invariant of the ring buffer. -/
def QInv (s : QState) : Prop :=
  (-1 ≤ s.head ∧ s.head ≤ QUEUE_END) ∧ (-1 ≤ s.tail ∧ s.tail ≤ QUEUE_END) ∧
    (s.head = -1 ↔ s.tail = -1)

theorem qInv_init : QInv qInit := by
  simp [QInv, qInit, QUEUE_END, QUEUE_SIZE]

theorem qInv_push (s : QState) (v : Int) (hs : QInv s)
    (hfull : queue_full s = false) : QInv (queue_push v s).1 := by
  obtain ⟨hd, tl, b⟩ := s
  simp only [QInv, QUEUE_END, QUEUE_SIZE] at hs
  simp only [queue_full, QUEUE_END, QUEUE_SIZE, Bool.or_eq_false_iff,
    Bool.and_eq_false_iff, beq_eq_false_iff_ne, ne_eq] at hfull
  simp only [queue_push, QUEUE_END, QUEUE_SIZE]
  split_ifs with hA hB
  · simp only [QInv, QUEUE_END, QUEUE_SIZE]
    first | trivial | omega
  · simp only [Bool.and_eq_true, decide_eq_true_eq, beq_iff_eq, gt_iff_lt] at hB
    simp only [QInv, QUEUE_END, QUEUE_SIZE]
    first | trivial | omega
  · simp only [Bool.and_eq_true, decide_eq_true_eq, beq_iff_eq, gt_iff_lt,
      not_and, not_lt] at hB
    simp only [QInv, QUEUE_END, QUEUE_SIZE]
    first | trivial | omega

theorem qInv_pop (s : QState) (hs : QInv s)
    (hemp : queue_empty s = false) : QInv (queue_pop s).1 := by
  obtain ⟨hd, tl, b⟩ := s
  simp only [QInv, QUEUE_END, QUEUE_SIZE] at hs
  simp only [queue_empty, decide_eq_false_iff_not, not_lt] at hemp
  simp only [queue_pop, QUEUE_END, QUEUE_SIZE]
  split_ifs with hA hB <;> simp only [QInv, QUEUE_END, QUEUE_SIZE] <;>
    first | trivial | omega

theorem qInv_reach (s : QState) (h : QReach s) : QInv s := by
  induction h with
  | init => exact qInv_init
  | push s v _ hfull ih => exact qInv_push s v ih hfull
  | pop s _ hemp ih => exact qInv_pop s ih hemp

/-- Claim C1: for every sequence of put/get operations on the capacity-100
channel that respects the blocking protocol (push only when not full, pop only
when not empty), the occupied count stays in `[0, 100]`, `queue_push` writes
`PCQueue` only at an index in `[0, 99]` (never past the array end), and
`queue_pop` reads only at an index in `[0, 99]` (never before its start). -/
theorem c1_channel_safety (s : QState) (h : QReach s) :
    (0 ≤ occupied s ∧ occupied s ≤ QUEUE_SIZE) ∧
    (∀ v : Int, queue_full s = false →
      0 ≤ (queue_push v s).2 ∧ (queue_push v s).2 ≤ QUEUE_END) ∧
    (queue_empty s = false →
      0 ≤ (queue_pop s).2.2 ∧ (queue_pop s).2.2 ≤ QUEUE_END) := by
  have hinv := qInv_reach s h
  obtain ⟨hd, tl, b⟩ := s
  simp only [QInv, QUEUE_END, QUEUE_SIZE] at hinv
  refine ⟨?_, ?_, ?_⟩
  · simp only [occupied, QUEUE_SIZE]
    split_ifs with hlt
    · omega
    · constructor <;> omega
  · intro v hfull
    simp only [queue_full, QUEUE_END, QUEUE_SIZE, Bool.or_eq_false_iff,
      Bool.and_eq_false_iff, beq_eq_false_iff_ne, ne_eq] at hfull
    simp only [queue_push, QUEUE_END, QUEUE_SIZE]
    split_ifs with hA hB
    · omega
    · omega
    · simp only [Bool.and_eq_true, decide_eq_true_eq, beq_iff_eq, gt_iff_lt,
        not_and, not_lt] at hB
      dsimp only
      omega
  · intro hemp
    simp only [queue_empty, decide_eq_false_iff_not, not_lt] at hemp
    simp only [queue_pop, QUEUE_END, QUEUE_SIZE]
    split_ifs <;> dsimp only <;> omega

/-- Witness for C1: the initial state is reachable and not full, and the very
first push writes at index 0 of the array. -/
theorem c1_channel_safety_witness :
    0 ≤ (queue_push 7 qInit).2 ∧ (queue_push 7 qInit).2 ≤ QUEUE_END :=
  (c1_channel_safety qInit QReach.init).2.1 7 (by decide)

/-- Claim C2 is violated by the code (code bug): the C globals start at
`Q_Head = 0`, `Q_Tail = 0`, so by the code's own `queue_empty` predicate
(`Q_Head < 0`) the freshly created channel is NOT empty although nothing was
ever put.  Respecting the blocking protocol throughout (each `queue_full` /
`queue_empty` check below is `false`), after a single put of `7` the first get
returns `0` — the never-written, zero-initialized slot `PCQueue[0]` — and only
the second get returns `7`.  Hence `get` does not return the oldest value put,
and a value that was never put is handed to a consumer. -/
theorem c2_fifo_violated_at_startup :
    queue_empty qInit = false ∧
    queue_full qInit = false ∧
    queue_empty (queue_push 7 qInit).1 = false ∧
    (queue_pop (queue_push 7 qInit).1).2.1 = 0 ∧
    queue_empty (queue_pop (queue_push 7 qInit).1).1 = false ∧
    (queue_pop (queue_pop (queue_push 7 qInit).1).1).2.1 = 7 := by
  refine ⟨by decide, by decide, ?_, ?_, ?_, ?_⟩ <;>
    simp [queue_push, queue_pop, queue_empty, qInit, writeBuf, QUEUE_END, QUEUE_SIZE]

/-! ## Dining philosophers (lines 228-316)

`run_diners` spawns 5 philosopher threads with ids `0..4` running
`think_then_eat` over 5 fork semaphores, each initialized to 1.  A fork is
"held" exactly between the `sem_wait` and the matching `sem_post`, so fork
ownership is derived from the philosophers' control locations. -/

inductive Phase
  | thinking
  | wantFirst
  | hasFirst
  | eating
  | relFirst
  | exited
  deriving DecidableEq

/-- Fork choice of `think_then_eat` (lines 277-285): `left_fork = my_id`,
`right_fork = (my_id + 1) % FORK_COUNT`; philosopher 0 is the leftie, so its
forks are swapped.  Returns the pair `(left_fork, right_fork)`.  `Fin 5`
addition is addition modulo 5. -/
def philForks (i : Fin 5) : Fin 5 × Fin 5 :=
  if i = 0 then (i + 1, i) else (i, i + 1)

/-- `get_forks` (lines 258-263) waits on `right_fork` first, so the first fork
a philosopher acquires is the right one. -/
def firstFork (i : Fin 5) : Fin 5 := (philForks i).2

/-- The second fork a philosopher acquires is the left one. -/
def secondFork (i : Fin 5) : Fin 5 := (philForks i).1

/-- The semaphore indices `get_forks` (lines 258-263) waits on, in program
order: right fork, then left fork. -/
def get_forks_order (left_fork right_fork : Fin 5) : List (Fin 5) :=
  [right_fork, left_fork]

/-- The semaphore indices `put_down_forks` (lines 265-270) posts, in program
order: right fork, then left fork. -/
def put_down_forks_order (left_fork right_fork : Fin 5) : List (Fin 5) :=
  [right_fork, left_fork]

/-- The fork-acquisition order of philosopher `i` in `think_then_eat`. -/
def philAcquireOrder (i : Fin 5) : List (Fin 5) :=
  get_forks_order (philForks i).1 (philForks i).2

/-- The fork-release order of philosopher `i` in `think_then_eat`. -/
def philReleaseOrder (i : Fin 5) : List (Fin 5) :=
  put_down_forks_order (philForks i).1 (philForks i).2

structure DinerSt where
  p : Fin 5 → Phase
  term : Bool

/-- Philosopher `i` holds fork `f`: between the `sem_wait` and the matching
`sem_post` of `think_then_eat`'s body. -/
def holdsFork (s : DinerSt) (i f : Fin 5) : Bool :=
  match s.p i with
  | .hasFirst => f = firstFork i
  | .eating => f = firstFork i || f = secondFork i
  | .relFirst => f = secondFork i
  | _ => false

/-- Fork semaphore `f` is available (`sem_wait` would not block). -/
def forkFree (s : DinerSt) (f : Fin 5) : Bool :=
  decide (∀ i : Fin 5, holdsFork s i f = false)

def updPhase (p : Fin 5 → Phase) (i : Fin 5) (ph : Phase) : Fin 5 → Phase :=
  fun j => if j = i then ph else p j

inductive DAct
  | phil (i : Fin 5)
  | sigint

/-- One interleaving step of the dining-philosophers system.  A philosopher at
the loop head checks `TerminationRequested` (line 287); `get_forks` acquires
the first then the second fork, blocking while the fork is held;
`put_down_forks` posts the first-acquired fork, then the second. -/
def dinerNext (s : DinerSt) : DAct → Option DinerSt
  | .phil i =>
    match s.p i with
    | .thinking =>
        some ⟨updPhase s.p i (if s.term then .exited else .wantFirst), s.term⟩
    | .wantFirst =>
        if forkFree s (firstFork i) then some ⟨updPhase s.p i .hasFirst, s.term⟩
        else none
    | .hasFirst =>
        if forkFree s (secondFork i) then some ⟨updPhase s.p i .eating, s.term⟩
        else none
    | .eating => some ⟨updPhase s.p i .relFirst, s.term⟩
    | .relFirst => some ⟨updPhase s.p i .thinking, s.term⟩
    | .exited => none
  | .sigint => if s.term then none else some ⟨s.p, true⟩

/-- All philosophers start at the loop head, no termination requested. -/
def dinerInit : DinerSt := ⟨fun _ => .thinking, false⟩

inductive DReach : DinerSt → Prop
  | init : DReach dinerInit
  | step (s : DinerSt) (a : DAct) (s' : DinerSt) :
      DReach s → dinerNext s a = some s' → DReach s'

/-- Philosopher `i` is blocked waiting on a fork: parked in a `sem_wait`
whose semaphore is currently held. -/
def blockedOnFork (s : DinerSt) (i : Fin 5) : Prop :=
  (s.p i = .wantFirst ∧ forkFree s (firstFork i) = false) ∨
  (s.p i = .hasFirst ∧ forkFree s (secondFork i) = false)

def allBlocked (s : DinerSt) : Prop := ∀ i, blockedOnFork s i

theorem blockedOnFork_phase (s : DinerSt) (i : Fin 5) (h : blockedOnFork s i) :
    s.p i = .wantFirst ∨ s.p i = .hasFirst :=
  h.elim (fun hc => Or.inl hc.1) (fun hc => Or.inr hc.1)

theorem exists_holder_of_not_free (s : DinerSt) (f : Fin 5)
    (h : forkFree s f = false) : ∃ j, holdsFork s j f = true := by
  simp only [forkFree, decide_eq_false_iff_not, not_forall] at h
  obtain ⟨j, hj⟩ := h
  exact ⟨j, by simpa using hj⟩

theorem firstFork_eq_two : ∀ j : Fin 5, firstFork j = 2 → j = 1 := by
  decide

theorem firstFork_ne_one : ∀ j : Fin 5, firstFork j ≠ 1 := by
  decide

/-- In no state of the system — reachable or not — are all five philosophers
simultaneously blocked waiting on a fork.  This is the four-righties/one-leftie
argument localized at philosopher 1: its second fork (fork 1) is never anyone's
first fork, and its first fork (fork 2) can only be held by philosopher 1
itself. -/
theorem not_allBlocked (s : DinerSt) : ¬ allBlocked s := by
  intro h
  rcases h 1 with ⟨hp1, hheld⟩ | ⟨hp1, hheld⟩
  · obtain ⟨j, hj⟩ := exists_holder_of_not_free s (firstFork 1) hheld
    have hff : firstFork 1 = 2 := by decide
    rw [hff] at hj
    rcases blockedOnFork_phase s j (h j) with hpj | hpj
    · simp only [holdsFork, hpj] at hj
      exact Bool.noConfusion hj
    · simp only [holdsFork, hpj, decide_eq_true_eq] at hj
      have hj1 : j = 1 := firstFork_eq_two j hj.symm
      rw [hj1] at hpj
      rw [hp1] at hpj
      exact Phase.noConfusion hpj
  · obtain ⟨j, hj⟩ := exists_holder_of_not_free s (secondFork 1) hheld
    have hsf : secondFork 1 = 1 := by decide
    rw [hsf] at hj
    rcases blockedOnFork_phase s j (h j) with hpj | hpj
    · simp only [holdsFork, hpj] at hj
      exact Bool.noConfusion hj
    · simp only [holdsFork, hpj, decide_eq_true_eq] at hj
      exact firstFork_ne_one j hj.symm

/-- Claim C3: with 5 philosophers and 5 forks under the four-righty/one-leftie
acquisition rule of `think_then_eat`, no reachable state of the
fork-acquisition step relation has all 5 philosophers simultaneously blocked
waiting on a fork. -/
theorem c3_no_deadlock (s : DinerSt) (h : DReach s) : ¬ allBlocked s :=
  not_allBlocked s

/-- Witness for C3: the initial state is reachable and deadlock-free. -/
theorem c3_no_deadlock_witness : ¬ allBlocked dinerInit :=
  c3_no_deadlock dinerInit DReach.init

/-- Claim C4: philosophers 1..4 acquire fork `(i + 1) % 5` first and fork `i`
second, philosopher 0 acquires fork 0 first and fork 1 second, and every
philosopher releases its forks in the same order it acquired them. -/
theorem c4_acquire_release_orders :
    philAcquireOrder 0 = [0, 1] ∧ philAcquireOrder 1 = [2, 1] ∧
    philAcquireOrder 2 = [3, 2] ∧ philAcquireOrder 3 = [4, 3] ∧
    philAcquireOrder 4 = [0, 4] ∧
    ∀ i : Fin 5, philReleaseOrder i = philAcquireOrder i := by
  decide

/-! ## Potion brewers (lines 330-551)

`run_brewers` creates, per ingredient `i ∈ {0,1,2}`: one agent thread
(`release_ingredients`), one broker thread (`broker_ingredients`) and one
brewer thread (`brew`), sharing one `agent` semaphore (initialized to 0),
three ingredient flag semaphores (initialized to 0) and one mutex.

The C `struct Ingredient` field `is_available` has type `bool*`.  Over a run
the pointer takes three values: the `malloc` result from
`initialize_ingredients` (non-null), `false` (null, lines 445/448) and
`(bool *) true` (non-null, line 451).  The broker's test
`if (broker->ingredient1->is_available)` branches on the POINTER value, not on
the pointed-to boolean, so only non-null-ness is observable; we record it as
`isAvailPtrNonNull`.  The malloc'd boolean itself is written once (`false`, in
`initialize_ingredients`) and never again; we record it as
`isAvailPointee`. -/

structure Ingredient where
  flagSem : Nat
  isAvailPtrNonNull : Bool
  isAvailPointee : Bool

/-- `initialize_ingredients` (lines 488-499): every flag semaphore starts at
0, every `is_available` pointer is a fresh non-null `malloc` result, and the
pointed-to boolean is set to `false`. -/
def initialize_ingredients : Fin 3 → Ingredient :=
  fun _ => ⟨0, true, false⟩

/-- The availability condition `broker_ingredients` actually branches on
(lines 444/447): C truthiness of the `bool*` pointer. -/
def availTest (ing : Ingredient) : Bool := ing.isAvailPtrNonNull

structure BrokerInfo where
  id : Fin 3
  broker_ingredient : Fin 3
  ingredient1 : Option (Fin 3)
  ingredient2 : Option (Fin 3)

/-- Broker wiring from `run_brewers` (lines 526-537): `broker_ingredient = i`;
`ingredient1` is assigned twice — `&ingredients[(i+1)%3]` at line 536 is
immediately overwritten by `&ingredients[(i+2)%3]` at line 537 — and
`ingredient2` is never assigned, so it holds an indeterminate stack value,
modeled as `none`. -/
def brokerInfoInit (i : Fin 3) : BrokerInfo :=
  { id := i, broker_ingredient := i, ingredient1 := some (i + 2),
    ingredient2 := none }

structure AgentInfo where
  id : Fin 3
  ingredient1 : Option (Fin 3)
  ingredient2 : Option (Fin 3)

/-- Agent wiring from `run_brewers` (lines 523-524): only `id` and the shared
`agent` semaphore are assigned; the `ingredient1` and `ingredient2` fields are
never assigned (indeterminate stack values), modeled as `none`. -/
def agentInfoInit (i : Fin 3) : AgentInfo :=
  { id := i, ingredient1 := none, ingredient2 := none }

structure BrewerInfo where
  id : Fin 3
  ingredient : Fin 3

/-- Brewer wiring from `run_brewers` (lines 519-521). -/
def brewerInfoInit (i : Fin 3) : BrewerInfo :=
  { id := i, ingredient := i }

inductive AgentPC
  | loopHead
  | atWait
  | atPost
  | exited
  deriving DecidableEq

inductive BrokerPC
  | atWait
  | atCS
  | returned
  deriving DecidableEq

inductive BrewerPC
  | loopHead
  | atWait
  | atBrew
  | exited
  deriving DecidableEq

structure BrewSt where
  term : Bool
  agentSem : Nat
  flag : Fin 3 → Nat
  avail : Fin 3 → Bool
  agentPC : Fin 3 → AgentPC
  brokerPC : Fin 3 → BrokerPC
  brewerPC : Fin 3 → BrewerPC

instance : DecidableEq BrewSt := fun s t =>
  decidable_of_iff
    (s.term = t.term ∧ s.agentSem = t.agentSem ∧ s.flag = t.flag ∧
      s.avail = t.avail ∧ s.agentPC = t.agentPC ∧ s.brokerPC = t.brokerPC ∧
      s.brewerPC = t.brewerPC)
    (by cases s; cases t; simp)

def updFn {α : Type} (f : Fin 3 → α) (i : Fin 3) (v : α) : Fin 3 → α :=
  fun j => if j = i then v else f j

/-- `sem_post` on ingredient flag `j`. -/
def postFlag (f : Fin 3 → Nat) (j : Fin 3) : Fin 3 → Nat :=
  updFn f j (f j + 1)

inductive BAct
  | agent (i : Fin 3)
  | broker (i : Fin 3)
  | brewer (i : Fin 3)
  | sigint
  deriving DecidableEq

/-- One interleaving step of the potion-brewers system.

Agent (`release_ingredients`, lines 457-471): loop head checks
`TerminationRequested`; `sem_wait(agent->agent)` blocks while the shared agent
semaphore is 0; the two `sem_post` calls go through the never-assigned
`ingredient1`/`ingredient2` pointers — posting through an indeterminate
pointer has no defined successor.

Broker (`broker_ingredients`, lines 435-455): `sem_wait` on its own
ingredient's flag, then the mutex-protected check-and-signal block, executed
atomically here because every access is under the single `Mutex`; reading
`ingredient2->is_available` through the never-assigned `ingredient2` pointer
has no defined successor.  The body is straight-line: after the critical
section the thread returns.

Brewer (`brew`, lines 473-486): loop head checks `TerminationRequested`;
`sem_wait` on its ingredient's flag; then posts the shared agent semaphore and
loops. -/
def brewNext (s : BrewSt) : BAct → Option BrewSt
  | .agent i =>
    match s.agentPC i with
    | .loopHead =>
        some { s with agentPC := updFn s.agentPC i
                        (if s.term then .exited else .atWait) }
    | .atWait =>
        if s.agentSem > 0 then
          some { s with agentSem := s.agentSem - 1,
                        agentPC := updFn s.agentPC i .atPost }
        else none
    | .atPost =>
        match (agentInfoInit i).ingredient1, (agentInfoInit i).ingredient2 with
        | some j, some k =>
            some { s with flag := postFlag (postFlag s.flag j) k,
                          agentPC := updFn s.agentPC i .loopHead }
        | _, _ => none
    | .exited => none
  | .broker i =>
    match s.brokerPC i with
    | .atWait =>
        if s.flag ((brokerInfoInit i).broker_ingredient) > 0 then
          some { s with
            flag := updFn s.flag ((brokerInfoInit i).broker_ingredient)
              (s.flag ((brokerInfoInit i).broker_ingredient) - 1),
            brokerPC := updFn s.brokerPC i .atCS }
        else none
    | .atCS =>
        match (brokerInfoInit i).ingredient1 with
        | none => none
        | some j =>
          if s.avail j then
            some { s with avail := updFn s.avail j false,
                          flag := postFlag s.flag j,
                          brokerPC := updFn s.brokerPC i .returned }
          else
            match (brokerInfoInit i).ingredient2 with
            | none => none
            | some k =>
              if s.avail k then
                some { s with avail := updFn s.avail k false,
                              flag := postFlag s.flag k,
                              brokerPC := updFn s.brokerPC i .returned }
              else
                some { s with
                  avail := updFn s.avail ((brokerInfoInit i).broker_ingredient)
                    true,
                  brokerPC := updFn s.brokerPC i .returned }
    | .returned => none
  | .brewer i =>
    match s.brewerPC i with
    | .loopHead =>
        some { s with brewerPC := updFn s.brewerPC i
                        (if s.term then .exited else .atWait) }
    | .atWait =>
        if s.flag ((brewerInfoInit i).ingredient) > 0 then
          some { s with
            flag := updFn s.flag ((brewerInfoInit i).ingredient)
              (s.flag ((brewerInfoInit i).ingredient) - 1),
            brewerPC := updFn s.brewerPC i .atBrew }
        else none
    | .atBrew =>
        some { s with agentSem := s.agentSem + 1,
                      brewerPC := updFn s.brewerPC i .loopHead }
    | .exited => none
  | .sigint => if s.term then none else some { s with term := true }

/-- State right after `run_brewers` has spawned all nine threads: agent
semaphore 0, all flags 0, all `is_available` pointers non-null, agents and
brewers at their loop heads, brokers at their initial `sem_wait`. -/
def brewInit : BrewSt :=
  { term := false, agentSem := 0,
    flag := fun i => (initialize_ingredients i).flagSem,
    avail := fun i => (initialize_ingredients i).isAvailPtrNonNull,
    agentPC := fun _ => .loopHead,
    brokerPC := fun _ => .atWait,
    brewerPC := fun _ => .loopHead }

def runActs : BrewSt → List BAct → Option BrewSt
  | s, [] => some s
  | s, a :: rest =>
    match brewNext s a with
    | some s' => runActs s' rest
    | none => none

/-- Claim C5 is violated by the code (code bug): broker `i` should reference
the two ingredients other than `i`, but `run_brewers` assigns
`broker_info[i].ingredient1` twice (lines 536-537) and never assigns
`broker_info[i].ingredient2`.  Broker 0 therefore checks ingredient 2 in its
first branch and dereferences an indeterminate pointer in its second, instead
of examining ingredients 1 and 2. -/
theorem c5_broker_wiring_bug :
    (brokerInfoInit 0).ingredient1 = some 2 ∧
    (∀ i : Fin 3, (brokerInfoInit i).ingredient2 = none) ∧
    ¬ ((brokerInfoInit 0).ingredient1 = some 1 ∧
       (brokerInfoInit 0).ingredient2 = some 2) := by
  decide

/-- Claim C6 is violated by the code (code bug): immediately after
`initialize_ingredients`, the availability condition the broker branches on —
C truthiness of the `bool*` field `is_available`, which is a fresh non-null
`malloc` pointer for every ingredient — is true for ALL THREE ingredients
simultaneously, not for at most one.  (The malloc'd boolean itself is `false`
for all three and is never written again: the broker's assignments at lines
445/448/451 overwrite the pointer, not the pointee.) -/
theorem c6_all_available_at_init :
    (∀ i : Fin 3, availTest (initialize_ingredients i) = true) ∧
    (∀ i : Fin 3, brewInit.avail i = true) ∧
    (∀ i : Fin 3, (initialize_ingredients i).isAvailPointee = false) := by
  decide

/-- Claim C7 is violated by the code (code bug): `release_ingredients` posts
`agent->ingredient1->flag` and `agent->ingredient2->flag` (lines 466-467), but
`run_brewers` never assigns `agent_info[i].ingredient1` or
`agent_info[i].ingredient2` (lines 523-524 assign only `id` and `agent`), so
no agent is wired to post the two ingredients not bound to its own brewer. -/
theorem c7_agent_wiring_bug :
    (∀ i : Fin 3, (agentInfoInit i).ingredient1 = none ∧
      (agentInfoInit i).ingredient2 = none) ∧
    ¬ ((agentInfoInit 0).ingredient1 = some 1 ∧
       (agentInfoInit 0).ingredient2 = some 2) := by
  decide

/-- Interleaving exhibiting the shutdown hang of claim C8: each agent and each
brewer passes its loop-head termination check (the flag is still unset) and
enters its first `sem_wait`; the brokers are already at theirs.  Then SIGINT
sets `TerminationRequested`. -/
def c8Acts : List BAct :=
  [.agent 0, .agent 1, .agent 2, .brewer 0, .brewer 1, .brewer 2, .sigint]

/-- The resulting state: termination set, every one of the nine workers parked
inside a `sem_wait` on a semaphore of value 0. -/
def c8Stuck : BrewSt :=
  { term := true, agentSem := 0, flag := fun _ => 0, avail := fun _ => true,
    agentPC := fun _ => .atWait, brokerPC := fun _ => .atWait,
    brewerPC := fun _ => .atWait }

/-- Claim C8 is violated by the code (code bug): the state `c8Stuck` is
reachable, the termination signal is set in it, yet no thread of the potion
brewers model has any enabled step — every worker is blocked forever inside an
untimed `sem_wait` (all semaphores are 0, and the only `sem_post` calls sit
after the waits), so no worker ever re-observes termination, no brewer thread
returns, and the `pthread_join(brewers[i], ...)` loop of `run_brewers`
(lines 545-548) never completes. -/
theorem c8_shutdown_hang :
    (runActs brewInit c8Acts).isSome = true ∧
    (runActs brewInit c8Acts).getD brewInit = c8Stuck ∧
    c8Stuck.term = true ∧
    (∀ i : Fin 3, brewNext c8Stuck (.agent i) = none) ∧
    (∀ i : Fin 3, brewNext c8Stuck (.broker i) = none) ∧
    (∀ i : Fin 3, brewNext c8Stuck (.brewer i) = none) ∧
    brewNext c8Stuck .sigint = none ∧
    (∀ i : Fin 3, c8Stuck.brewerPC i ≠ .exited) := by
  decide

/-- Interleaving refuting the "exactly once" part of claim C10: SIGINT
arrives first, then every agent and every brewer observes termination at its
loop head and exits; the brokers, whose bodies do not consult the termination
flag, stay parked at their initial `sem_wait`. -/
def c10Acts : List BAct :=
  [.sigint, .agent 0, .agent 1, .agent 2, .brewer 0, .brewer 1, .brewer 2]

/-- The resulting maximal state: agents and brewers exited, brokers still at
their first `sem_wait`, which can never complete. -/
def c10Stuck : BrewSt :=
  { term := true, agentSem := 0, flag := fun _ => 0, avail := fun _ => true,
    agentPC := fun _ => .exited, brokerPC := fun _ => .atWait,
    brewerPC := fun _ => .exited }

/-- Counterexample to claim C10 as stated: `c10Stuck` is reachable and has no
enabled step (a maximal execution), yet broker 0 is still at its initial
`sem_wait` — it never executed its wait-check-signal body even once and never
returned, contradicting "each broker thread executes its body exactly once
and then returns". -/
theorem c10_broker_never_returns :
    (runActs brewInit c10Acts).isSome = true ∧
    (runActs brewInit c10Acts).getD brewInit = c10Stuck ∧
    (∀ i : Fin 3, brewNext c10Stuck (.agent i) = none) ∧
    (∀ i : Fin 3, brewNext c10Stuck (.broker i) = none) ∧
    (∀ i : Fin 3, brewNext c10Stuck (.brewer i) = none) ∧
    brewNext c10Stuck .sigint = none ∧
    c10Stuck.brokerPC 0 = .atWait ∧
    (BrokerPC.atWait ≠ BrokerPC.returned) := by
  decide

/-- Control-flow progress measure of the straight-line broker body. -/
def brokerRank : BrokerPC → Nat
  | .atWait => 0
  | .atCS => 1
  | .returned => 2

theorem brokerRank_le_two (pc : BrokerPC) : brokerRank pc ≤ 2 := by
  cases pc <;> simp [brokerRank]

/-- Every step of broker `i` strictly advances its program counter: the broker
body has no back-edge. -/
theorem broker_step_rank (s s' : BrewSt) (i : Fin 3)
    (h : brewNext s (.broker i) = some s') :
    brokerRank (s'.brokerPC i) = brokerRank (s.brokerPC i) + 1 := by
  cases hpc : s.brokerPC i <;>
    simp only [brewNext, hpc, brokerInfoInit] at h
  · split at h
    · injection h with h
      subst h
      simp [updFn, hpc, brokerRank]
    · exact Option.noConfusion h
  · split at h
    · injection h with h
      subst h
      simp [updFn, hpc, brokerRank]
    · exact Option.noConfusion h
  · exact Option.noConfusion h

/-- No action other than broker `i`'s own ever changes broker `i`'s program
counter. -/
theorem broker_pc_frame (s s' : BrewSt) (a : BAct) (i : Fin 3)
    (hne : a ≠ .broker i) (h : brewNext s a = some s') :
    s'.brokerPC i = s.brokerPC i := by
  cases a with
  | agent j =>
    simp only [brewNext] at h
    repeat' split at h
    all_goals first
      | exact Option.noConfusion h
      | (injection h with h; subst h; rfl)
  | broker j =>
    have hji : i ≠ j := fun hh => hne (by rw [hh])
    simp only [brewNext, brokerInfoInit] at h
    repeat' split at h
    all_goals first
      | exact Option.noConfusion h
      | (injection h with h; subst h; simp [updFn, hji])
  | brewer j =>
    simp only [brewNext] at h
    repeat' split at h
    all_goals first
      | exact Option.noConfusion h
      | (injection h with h; subst h; rfl)
  | sigint =>
    simp only [brewNext] at h
    split at h
    · exact Option.noConfusion h
    · injection h with h
      subst h
      rfl

/-- Along any run, broker `i`'s rank grows by exactly its own step count. -/
theorem runActs_brokerRank (i : Fin 3) :
    ∀ (acts : List BAct) (s0 s : BrewSt), runActs s0 acts = some s →
      brokerRank (s.brokerPC i) =
        brokerRank (s0.brokerPC i) +
          acts.countP (fun a => decide (a = .broker i))
  | [], s0, s, h => by
    simp only [runActs] at h
    injection h with h
    subst h
    simp
  | a :: rest, s0, s, h => by
    simp only [runActs] at h
    cases hstep : brewNext s0 a with
    | none =>
      simp only [hstep] at h
      exact Option.noConfusion h
    | some s1 =>
      simp only [hstep] at h
      have ih := runActs_brokerRank i rest s1 s h
      by_cases ha : a = .broker i
      · subst ha
        have hr := broker_step_rank s0 s1 i hstep
        simp only [List.countP_cons]
        simp
        omega
      · have hf := broker_pc_frame s0 s1 a i ha hstep
        rw [ih, hf]
        simp [List.countP_cons, ha]

/-- Claim C10, amended: each broker thread's body is straight-line — in any
run it takes at most two transitions (one completing its `sem_wait`, one
running its locked check-and-signal block, after which it has returned), so
the wait-check-signal body executes AT MOST once per ingredient regardless of
the termination signal — while every agent and every brewer re-enters its body
from the loop head unless the termination signal is observed there, and the
brewer's body loops back to that head. -/
theorem c10_amended_broker_at_most_once :
    (∀ (i : Fin 3) (acts : List BAct) (s : BrewSt),
      runActs brewInit acts = some s →
      acts.countP (fun a => decide (a = BAct.broker i)) ≤ 2) ∧
    (∀ (s : BrewSt) (i : Fin 3), s.agentPC i = .loopHead →
      brewNext s (.agent i) =
        some { s with agentPC := updFn s.agentPC i
                        (if s.term then .exited else .atWait) }) ∧
    (∀ (s : BrewSt) (i : Fin 3), s.brewerPC i = .loopHead →
      brewNext s (.brewer i) =
        some { s with brewerPC := updFn s.brewerPC i
                        (if s.term then .exited else .atWait) }) ∧
    (∀ (s : BrewSt) (i : Fin 3), s.brewerPC i = .atBrew →
      brewNext s (.brewer i) =
        some { s with agentSem := s.agentSem + 1,
                      brewerPC := updFn s.brewerPC i .loopHead }) := by
  refine ⟨?_, ?_, ?_, ?_⟩
  · intro i acts s h
    have hrank := runActs_brokerRank i acts brewInit s h
    have hle : brokerRank (s.brokerPC i) ≤ 2 := brokerRank_le_two _
    have h0 : brokerRank (brewInit.brokerPC i) = 0 := rfl
    omega
  · intro s i h
    simp [brewNext, h]
  · intro s i h
    simp [brewNext, h]
  · intro s i h
    simp [brewNext, h]

/-- A state with brewer 0 about to post the agent semaphore, used by the
witness below. -/
def brewInitAtBrew : BrewSt := { brewInit with brewerPC := fun _ => .atBrew }

/-- Witness for the amended C10: concrete instantiations of all four
conjuncts. -/
theorem c10_amended_broker_at_most_once_witness :
    List.countP (fun a => decide (a = BAct.broker 0)) ([] : List BAct) ≤ 2 ∧
    brewNext brewInit (.agent 0) =
      some { brewInit with agentPC := updFn brewInit.agentPC 0 .atWait } ∧
    brewNext brewInit (.brewer 0) =
      some { brewInit with brewerPC := updFn brewInit.brewerPC 0 .atWait } ∧
    brewNext brewInitAtBrew (.brewer 0) =
      some { brewInitAtBrew with
             agentSem := brewInitAtBrew.agentSem + 1,
             brewerPC := updFn brewInitAtBrew.brewerPC 0 .loopHead } :=
  ⟨c10_amended_broker_at_most_once.1 0 [] brewInit rfl,
   c10_amended_broker_at_most_once.2.1 brewInit 0 rfl,
   c10_amended_broker_at_most_once.2.2.1 brewInit 0 rfl,
   c10_amended_broker_at_most_once.2.2.2 brewInitAtBrew 0 rfl⟩

/-! ## CLI parsing and exit status (lines 568-702) -/

inductive Model
  | ProdCon
  | Diners
  | Brewers
  | None
  deriving DecidableEq

/-- One option as delivered by the `getopt(argc, argv, "dbpn:c:")` loop of
`parse_command_line` (lines 590-628): a recognized mode flag; `-n`/`-c`
carrying the `atoi` of its argument (`getopt` hands the following `argv` entry
to `optarg` even when it starts with a dash, and `atoi` parses an optional
sign); a `-n`/`-c` with its value missing (`optopt` case, message printed,
loop continues); or an unknown flag (model reset to `None`, parse returns
immediately). -/
inductive CmdOpt
  | d
  | b
  | p
  | n (val : Int)
  | c (val : Int)
  | missingValNC
  | unknownFlag
  deriving DecidableEq

structure ParseResult where
  problemType : Model
  producerCount : Int
  consumerCount : Int
  deriving DecidableEq

/-- The option-processing loop of `parse_command_line` (lines 590-629),
mutating `ProblemType`, `ProducerCount` and `ConsumerCount`. -/
def parseOpts : Model → Int → Int → List CmdOpt → ParseResult
  | pt, n, c, [] => ⟨pt, n, c⟩
  | _, n, c, .d :: rest => parseOpts .Diners n c rest
  | _, n, c, .b :: rest => parseOpts .Brewers n c rest
  | _, n, c, .p :: rest => parseOpts .ProdCon n c rest
  | pt, _, c, .n v :: rest => parseOpts pt v c rest
  | pt, n, _, .c v :: rest => parseOpts pt n v rest
  | pt, n, c, .missingValNC :: rest => parseOpts pt n c rest
  | _, n, c, .unknownFlag :: _ => ⟨.None, n, c⟩

/-- `parse_command_line` (lines 588-640): run the option loop from
`ProblemType = None` (set in `main`, line 671) and the zero-initialized
counters, then apply the validation of lines 631-635, which rejects the
Producer/Consumer model only when `ProducerCount == 0 || ConsumerCount == 0`. -/
def parse_command_line (opts : List CmdOpt) : ParseResult :=
  let r := parseOpts .None 0 0 opts
  if r.problemType = .ProdCon ∧ (r.producerCount = 0 ∨ r.consumerCount = 0)
  then ⟨.None, r.producerCount, r.consumerCount⟩
  else r

/-- Exit status of `main` (line 701): `ProblemType == None ? -1 : 0`. -/
def mainExitCode (opts : List CmdOpt) : Int :=
  if (parse_command_line opts).problemType = .None then -1 else 0

/-- `run_prodcon` — which spawns the producer/consumer threads — is invoked
iff parsing selected the Producer/Consumer model (lines 683-686). -/
def spawnsProdConThreads (opts : List CmdOpt) : Bool :=
  (parse_command_line opts).problemType = .ProdCon

/-- Claim C9 is violated by the code (code bug): the validation only rejects
counts that are exactly 0, so `-p -n -3 -c 2` — a producer count that is NOT
strictly greater than zero — is accepted: the Producer/Consumer model is
selected, `run_prodcon` spawns threads with `ProducerCount = -3`, and the
process exit status is 0.  This contradicts the code's own diagnostic
("... each followed by an integer value greater than zero", lines 632-633).
The last three conjuncts record that zero/missing counts are rejected with a
non-zero exit and that a validly-parameterized run exits 0, as the claim's
remaining clauses state. -/
theorem c9_negative_count_accepted :
    parse_command_line [.p, .n (-3), .c 2] = ⟨.ProdCon, -3, 2⟩ ∧
    spawnsProdConThreads [.p, .n (-3), .c 2] = true ∧
    mainExitCode [.p, .n (-3), .c 2] = 0 ∧
    ¬ ((-3 : Int) > 0) ∧
    (parse_command_line [.p]).problemType = .None ∧
    mainExitCode [.p] = -1 ∧
    (parse_command_line [.p, .n 2, .c 3]).problemType = .ProdCon ∧
    mainExitCode [.p, .n 2, .c 3] = 0 := by
  decide

end DmoraConcurrency
